import Mathlib

/-!
Shallow embedding of `src/occtools/brep_point_on_faces_projection.cpp`
(class `occ::BRepPointOnFacesProjection`).

Modelling conventions:
* 3D points and scalar distances are rationals (`ℚ`), standing for the
  C++ `double` values; `DBL_MAX` (`std::numeric_limits<double>::max()`,
  used by `projector_compare` as the sentinel distance of a failed
  projection) is embedded as the exact rational value of that double.
* The external black box `GeomAPI_ProjectPointOnSurf` is modelled by its
  observable behaviour: a surface is a function from a query point to a
  projection result record (`IsDone`, `NbPoints`, `LowerDistance`,
  `NearestPoint`, `LowerDistanceParameters`).  A projector context pairs
  that behaviour with the mutable state left by the last `Perform` call.
* Heap allocation (`new` / `delete` of projector contexts) is explicit:
  pointers are naturals, `0` is the null pointer, and the heap maps a
  pointer to `some` context while allocated and `none` once freed.
  Dereferencing a freed or invalid pointer is undefined behaviour and is
  modelled by an `Option`-valued result of `none`; likewise `compute` on
  an empty pool, whose `assert(iResult != end)` fails, returns `none`.
-/

namespace occ

/-- A 3D point (`gp_Pnt` / `gp_Vec`), as a triple of rationals. -/
abbrev Pnt := ℚ × ℚ × ℚ

/-- Squared Euclidean distance between two points. -/
def dist2 (a b : Pnt) : ℚ :=
  (a.1 - b.1) * (a.1 - b.1) + (a.2.1 - b.2.1) * (a.2.1 - b.2.1) +
    (a.2.2 - b.2.2) * (a.2.2 - b.2.2)

/-- Modelled from the spec: `occ::origin3d` comes from `occtools/utils.h`,
which is not under `src/`; per the spec the sentinel solution point is the
coordinate origin `(0,0,0)`. -/
def origin3d : Pnt := (0, 0, 0)

/-- A `TopoDS_Face` handle: either the null face (`TopoDS_Face()`), or an
opaque face identity. -/
inductive Face where
  | nullFace : Face
  | mk (id : ℕ) : Face
deriving DecidableEq, Repr

/-- The observable outcome of one `GeomAPI_ProjectPointOnSurf::Perform`
call: converged flag, candidate count, minimal distance, nearest point and
the parametric coordinates of the minimal-distance candidate. -/
structure ProjResult where
  isDone : Bool
  nbPoints : ℕ
  lowerDistance : ℚ
  nearestPoint : Pnt
  lowerDistanceUV : ℚ × ℚ

/-- The external single-surface projection primitive for one surface, as a
black-box function from the query point to the projection outcome. -/
abbrev Surface := Pnt → ProjResult

/-- A `GeomAPI_ProjectPointOnSurf` context: the surface it was built for
together with the state left by the most recent `Perform`. -/
structure Projector_t where
  surf : Surface
  state : ProjResult

/-- `new GeomAPI_ProjectPointOnSurf(occ::origin3d, iSurf)`: the OCC
constructor immediately performs the projection of the seed point. -/
def mkProjector (s : Surface) : Projector_t :=
  { surf := s, state := s origin3d }

/-- `Projector_t::Perform(point)`: recompute the projection state for a
new query point. -/
def perform (p : Projector_t) (q : Pnt) : Projector_t :=
  { p with state := p.surf q }

/-- `std::numeric_limits<double>::max()`, exactly `(2^53 - 1) * 2^971`. -/
def DBL_MAX : ℚ := 179769313486231570814527423731704356798070567525844996598917476803157260780028538760589558632766878171540458953514382464234321326889464182768467546703537516986049910576551282076245490090389328944075868508455133942304583236903222948165808559332123348274797826204144723168738177180919299881250404026184124858368

/-- The per-projector distance used by `projector_compare`: the lower
distance when the projection converged with at least one candidate,
`DBL_MAX` otherwise. -/
def effective (p : Projector_t) : ℚ :=
  if p.state.isDone = true ∧ 0 < p.state.nbPoints then p.state.lowerDistance else DBL_MAX

/-- The comparison functor `projector_compare` from the anonymous
namespace: compare two projectors by their effective distances, a failed
or empty projection counting as `DBL_MAX`. -/
def projector_compare (p1 p2 : Projector_t) : Bool :=
  decide (effective p1 < effective p2)

/-- A raw pointer to a heap-allocated projector context; `0` is null. -/
abbrev Ptr := ℕ

/-- A heap of projector contexts: `none` means unallocated or freed. -/
abbrev Heap := Ptr → Option Projector_t

/-- Dereference a pointer, with a junk default for invalid pointers (all
uses are guarded so the default is never observable). -/
def heapGet (h : Heap) (p : Ptr) : Projector_t :=
  (h p).getD (mkProjector fun _ => ⟨false, 0, 0, origin3d, (0, 0)⟩)

/-- The state of one `occ::BRepPointOnFacesProjection` object together
with the heap holding its projector contexts.  `projectors` is the field
`_projectors` (pointer paired with its face), `solProjector` the field
`_solProjector`. -/
structure BRepPointOnFacesProjection where
  heap : Heap
  nextPtr : Ptr
  projectors : List (Ptr × Face)
  solProjector : Ptr × Face

/-- The default constructor: no entries, `_solProjector(0, TopoDS_Face())`. -/
def mkProjection : BRepPointOnFacesProjection :=
  { heap := fun _ => none
    nextPtr := 1
    projectors := []
    solProjector := (0, Face.nullFace) }

/-- The pointers held by the pool `_projectors`. -/
def poolPtrs (s : BRepPointOnFacesProjection) : List Ptr :=
  s.projectors.map Prod.fst

/-- `releaseMemory()`: delete every non-null pool pointer, clear the pool. -/
def releaseMemory (s : BRepPointOnFacesProjection) : BRepPointOnFacesProjection :=
  { s with
    heap := fun p => if p ∈ poolPtrs s ∧ p ≠ 0 then none else s.heap p
    projectors := [] }

/-- One loop iteration of `prepare`: allocate a fresh projector context
for a face and push the pair into the pool. -/
def allocOne (s : BRepPointOnFacesProjection) (fs : Face × Surface) :
    BRepPointOnFacesProjection :=
  { s with
    heap := fun p => if p = s.nextPtr then some (mkProjector fs.2) else s.heap p
    nextPtr := s.nextPtr + 1
    projectors := s.projectors ++ [(s.nextPtr, fs.1)] }

/-- A shape, reduced to what `prepare` consumes: the faces enumerated by
`TopExp_Explorer(faces, TopAbs_FACE)` in order, each with the surface
returned by `BRep_Tool::Surface`. -/
abbrev Shape := List (Face × Surface)

/-- `prepare(faces)`: release the previous pool, then allocate one
projector per enumerated face. -/
def prepare (s : BRepPointOnFacesProjection) (shape : Shape) :
    BRepPointOnFacesProjection :=
  shape.foldl allocOne (releaseMemory s)

/-- The converting constructor `BRepPointOnFacesProjection(faces)`. -/
def mkProjectionWith (shape : Shape) : BRepPointOnFacesProjection :=
  prepare mkProjection shape

/-- A pool entry can be dereferenced: its pointer is non-null and maps to
an allocated context (in C++, performing through a null or freed pointer
is undefined behaviour). -/
def entryValid (s : BRepPointOnFacesProjection) (e : Ptr × Face) : Bool :=
  decide (e.1 ≠ 0) && (s.heap e.1).isSome

/-- The heap after the `std::for_each`/`Perform` phase of `compute`:
every pool context recomputed at the query point, the rest untouched. -/
def performedHeap (s : BRepPointOnFacesProjection) (q : Pnt) : Heap :=
  fun p => if p ∈ poolPtrs s then (s.heap p).map (fun pr => perform pr q) else s.heap p

/-- The effective distance of a pool entry read through a heap. -/
def effAt (h : Heap) (e : Ptr × Face) : ℚ :=
  effective (heapGet h e.1)

/-- The entry comparator passed to `std::min_element`:
`projector_compare` applied to the `first` components, dereferenced
through the performed heap. -/
def computeCmp (s : BRepPointOnFacesProjection) (q : Pnt) :
    Ptr × Face → Ptr × Face → Bool :=
  fun e1 e2 =>
    projector_compare (heapGet (performedHeap s q) e1.1) (heapGet (performedHeap s q) e2.1)

/-- The accumulator loop of `std::min_element`: replace the current best
only on a strictly smaller element, so the first minimum wins ties. -/
def minElemAux {α : Type} (cmp : α → α → Bool) (best : α) : List α → α
  | [] => best
  | y :: ys => minElemAux cmp (if cmp y best then y else best) ys

/-- `std::min_element` over a whole range: `none` on an empty range
(the `end()` iterator). -/
def minElement {α : Type} (cmp : α → α → Bool) : List α → Option α
  | [] => none
  | x :: xs => some (minElemAux cmp x xs)

/-- `compute(point)`: perform every pool projector at the point, then
select the minimal entry and store it in `_solProjector`.  `none` models
undefined behaviour: a pool entry whose pointer cannot be dereferenced,
or the failing `assert(iResult != _projectors.end())` on an empty pool
(dereferencing `end()` in release builds). -/
def compute (s : BRepPointOnFacesProjection) (q : Pnt) :
    Option BRepPointOnFacesProjection :=
  if s.projectors.all (entryValid s) then
    match minElement (computeCmp s q) s.projectors with
    | some e => some { s with heap := performedHeap s q, solProjector := e }
    | none => none
  else none

/-- `isDone()`: false for a null stored projector, else the stored
projector's convergence; dereferencing a freed pointer is UB (`none`). -/
def isDone (s : BRepPointOnFacesProjection) : Option Bool :=
  if s.solProjector.1 = 0 then some false
  else (s.heap s.solProjector.1).map fun p => p.state.isDone && decide (0 < p.state.nbPoints)

/-- `solutionFace()`: the stored face if done, else the static empty face. -/
def solutionFace (s : BRepPointOnFacesProjection) : Option Face :=
  match isDone s with
  | some true => some s.solProjector.2
  | some false => some Face.nullFace
  | none => none

/-- `solutionPoint()`: the stored projector's nearest point if done, else
`occ::origin3d`. -/
def solutionPoint (s : BRepPointOnFacesProjection) : Option Pnt :=
  match isDone s with
  | some true => (s.heap s.solProjector.1).map fun p => p.state.nearestPoint
  | some false => some origin3d
  | none => none

/-- `solutionUV()`: the stored projector's lower-distance parameters if
done, else `(0, 0)`. -/
def solutionUV (s : BRepPointOnFacesProjection) : Option (ℚ × ℚ) :=
  match isDone s with
  | some true => (s.heap s.solProjector.1).map fun p => p.state.lowerDistanceUV
  | some false => some (0, 0)
  | none => none

/-- `solutionNormal()`: the normal at the solution parameters if done,
else `gp_Vec(0,0,1)`.  The normal evaluation `occ::normalToFaceAtUV`
lives in `occtools/utils`, an external collaborator here, so it is a
parameter. -/
def solutionNormal (nrm : Face → ℚ → ℚ → Pnt) (s : BRepPointOnFacesProjection) :
    Option Pnt :=
  match isDone s with
  | some true =>
      (s.heap s.solProjector.1).map fun p =>
        nrm s.solProjector.2 p.state.lowerDistanceUV.1 p.state.lowerDistanceUV.2
  | some false => some (0, 0, 1)
  | none => none

/-- The projection outcome entry `e` of the pool of `s` would report for
query point `q` (the state its context holds once `compute q` ran). -/
def projAt (s : BRepPointOnFacesProjection) (e : Ptr × Face) (q : Pnt) : ProjResult :=
  (heapGet s.heap e.1).surf q

/-- Entry `e` converges with at least one candidate at query point `q`. -/
def convergedAt (s : BRepPointOnFacesProjection) (e : Ptr × Face) (q : Pnt) : Prop :=
  (projAt s e q).isDone = true ∧ 0 < (projAt s e q).nbPoints

instance (s : BRepPointOnFacesProjection) (e : Ptr × Face) (q : Pnt) :
    Decidable (convergedAt s e q) := by
  unfold convergedAt
  infer_instance


/-! Concrete scenarios used to witness the theorems below.  `surfZ0` and
`surfZ10` model the spec's two planar square faces at `z = 0` and
`z = 10` for the query point `(0,0,3)` (projection distances 3 and 7);
`surfFail` models a face whose projection does not converge. -/

/-- A surface whose projection of `(0,0,3)` converges at distance 3. -/
def surfZ0 : Surface := fun _ => ⟨true, 1, 3, (0, 0, 0), (4, 9)⟩

/-- A surface whose projection of `(0,0,3)` converges at distance 7. -/
def surfZ10 : Surface := fun _ => ⟨true, 1, 7, (0, 0, 10), (4, 9)⟩

/-- A surface whose projection never converges. -/
def surfFail : Surface := fun _ => ⟨false, 0, 0, (0, 0, 0), (0, 0)⟩

/-- The two-plane soup of the spec's concrete scenario. -/
def shapeAB : Shape := [(Face.mk 1, surfZ0), (Face.mk 2, surfZ10)]

/-- The projector prepared on the two-plane soup. -/
def sAB : BRepPointOnFacesProjection := mkProjectionWith shapeAB

/-- The query point of the concrete scenario. -/
def qC : Pnt := (0, 0, 3)

/-- The state after `compute qC` on the two-plane soup. -/
def sAB2 : BRepPointOnFacesProjection := (compute sAB qC).getD sAB

/-- A soup whose two faces both fail to converge (an all-infinite tie). -/
def shapeTie : Shape := [(Face.mk 1, surfFail), (Face.mk 2, surfFail)]

/-- The projector prepared on the all-failing soup. -/
def sTie : BRepPointOnFacesProjection := mkProjectionWith shapeTie

/-- The state after `compute qC` on the all-failing soup. -/
def sTie2 : BRepPointOnFacesProjection := (compute sTie qC).getD sTie

/-- A soup with a failing first face and a converging second face. -/
def shapeMix : Shape := [(Face.mk 1, surfFail), (Face.mk 2, surfZ10)]

/-- The projector prepared on the mixed soup. -/
def sMix : BRepPointOnFacesProjection := mkProjectionWith shapeMix

/-- The state after `compute qC` on the mixed soup. -/
def sMix2 : BRepPointOnFacesProjection := (compute sMix qC).getD sMix

/-- A one-face shape used for the re-`prepare` scenario. -/
def shapeOne : Shape := [(Face.mk 1, surfZ0)]

/-- A projector prepared on `shapeOne`. -/
def sOne : BRepPointOnFacesProjection := mkProjectionWith shapeOne

/-- That projector after `compute qC` (its solution is face 1). -/
def sOne2 : BRepPointOnFacesProjection := (compute sOne qC).getD sOne

/-- That projector re-`prepare`d on a second, different one-face shape. -/
def sOne3 : BRepPointOnFacesProjection := prepare sOne2 [(Face.mk 2, surfZ10)]

/-- The pool a `prepare` builds from a shape when allocation starts at
pointer `n`: consecutive fresh pointers paired with the shape's faces. -/
def buildPool (n : Ptr) : Shape → List (Ptr × Face)
  | [] => []
  | fs :: rest => (n, fs.1) :: buildPool (n + 1) rest


/-! Generic facts about the `std::min_element` loop. -/

theorem minElemAux_mem {α : Type} (cmp : α → α → Bool) (b : α) (l : List α) :
    minElemAux cmp b l ∈ b :: l := by
  induction l generalizing b with
  | nil => simp [minElemAux]
  | cons y ys ih =>
    simp only [minElemAux]
    rcases List.mem_cons.mp (ih (if cmp y b then y else b)) with h | h
    · rw [h]
      by_cases hc : cmp y b = true
      · simp [hc]
      · simp [hc]
    · simp [h]

theorem minElemAux_le {α : Type} (f : α → ℚ) (cmp : α → α → Bool)
    (hcmp : ∀ a c, cmp a c = decide (f a < f c)) (b : α) (l : List α) :
    ∀ x ∈ b :: l, f (minElemAux cmp b l) ≤ f x := by
  have hpos : ∀ a c, cmp a c = true → f a < f c := by
    intro a c h
    rw [hcmp] at h
    exact of_decide_eq_true h
  have hneg : ∀ a c, ¬ cmp a c = true → ¬ f a < f c := by
    intro a c h
    rw [hcmp] at h
    exact of_decide_eq_false (Bool.not_eq_true _ ▸ Bool.of_not_eq_true h)
  induction l generalizing b with
  | nil =>
    intro x hx
    simp at hx
    simp [minElemAux, hx]
  | cons y ys ih =>
    intro x hx
    simp only [minElemAux]
    by_cases hc : cmp y b = true
    · rw [if_pos hc]
      rcases List.mem_cons.mp hx with h | h
      · subst h
        exact le_trans (ih y y (List.mem_cons_self _ _)) (le_of_lt (hpos y x hc))
      · rcases List.mem_cons.mp h with h1 | h1
        · rw [h1]
          exact ih y y (List.mem_cons_self _ _)
        · exact ih y x (List.mem_cons_of_mem _ h1)
    · rw [if_neg hc]
      rcases List.mem_cons.mp hx with h | h
      · subst h
        exact ih x x (List.mem_cons_self _ _)
      · rcases List.mem_cons.mp h with h1 | h1
        · subst h1
          exact le_trans (ih b b (List.mem_cons_self _ _)) (le_of_not_lt (hneg x b hc))
        · exact ih b x (List.mem_cons_of_mem _ h1)

theorem minElemAux_find {α : Type} (f : α → ℚ) (cmp : α → α → Bool)
    (hcmp : ∀ a c, cmp a c = decide (f a < f c)) (b : α) (l : List α) :
    (b :: l).find? (fun x => decide (f x = f (minElemAux cmp b l))) =
      some (minElemAux cmp b l) := by
  have hpos : ∀ a c, cmp a c = true → f a < f c := by
    intro a c h
    rw [hcmp] at h
    exact of_decide_eq_true h
  have hneg : ∀ a c, ¬ cmp a c = true → ¬ f a < f c := by
    intro a c h
    rw [hcmp] at h
    exact of_decide_eq_false (Bool.not_eq_true _ ▸ Bool.of_not_eq_true h)
  induction l generalizing b with
  | nil =>
    simp [minElemAux, List.find?]
  | cons y ys ih =>
    simp only [minElemAux]
    by_cases hc : cmp y b = true
    · have hite : (if cmp y b then y else b) = y := if_pos hc
      simp only [hite]
      have hlt : f y < f b := hpos y b hc
      have hr : f (minElemAux cmp y ys) ≤ f y :=
        minElemAux_le f cmp hcmp y ys y (List.mem_cons_self _ _)
      have hbne : ¬ (f b = f (minElemAux cmp y ys)) := by
        intro h
        rw [h] at hlt
        exact absurd (lt_of_le_of_lt hr hlt) (lt_irrefl _)
      rw [List.find?_cons_of_neg _ (by simpa using hbne)]
      exact ih y
    · have hite : (if cmp y b then y else b) = b := if_neg hc
      simp only [hite]
      have hIH := ih b
      by_cases hbeq : f b = f (minElemAux cmp b ys)
      · have hfindb : (b :: ys).find? (fun x => decide (f x = f (minElemAux cmp b ys))) =
            some b :=
          List.find?_cons_of_pos _ (by simpa using hbeq)
        rw [hfindb] at hIH
        have hrb : minElemAux cmp b ys = b := by
          injection hIH with h
          exact h.symm
        rw [hrb]
        exact List.find?_cons_of_pos _ (by simp)
      · have hble : f (minElemAux cmp b ys) ≤ f b :=
          minElemAux_le f cmp hcmp b ys b (List.mem_cons_self _ _)
        have hblt : f (minElemAux cmp b ys) < f b := lt_of_le_of_ne hble (fun h => hbeq h.symm)
        rw [List.find?_cons_of_neg _ (by simpa using hbeq)] at hIH
        rw [List.find?_cons_of_neg _ (by simpa using hbeq)]
        have hyb : ¬ f y < f b := hneg y b hc
        have hyne : ¬ (f y = f (minElemAux cmp b ys)) := by
          intro h
          have hby : f b ≤ f y := le_of_not_lt hyb
          rw [h] at hby
          exact absurd (lt_of_le_of_lt hby hblt) (lt_irrefl _)
        rw [List.find?_cons_of_neg _ (by simpa using hyne)]
        exact hIH

theorem minElemAux_congr {α : Type} (cmp1 cmp2 : α → α → Bool) (b : α) (l : List α)
    (h : ∀ a ∈ b :: l, ∀ c ∈ b :: l, cmp1 a c = cmp2 a c) :
    minElemAux cmp1 b l = minElemAux cmp2 b l := by
  induction l generalizing b with
  | nil => rfl
  | cons y ys ih =>
    simp only [minElemAux]
    have hyb : cmp1 y b = cmp2 y b := h y (by simp) b (by simp)
    rw [hyb]
    apply ih
    intro a ha c hc
    apply h
    · rcases List.mem_cons.mp ha with h1 | h1
      · subst h1
        by_cases hcc : cmp2 y b = true <;> simp [hcc]
      · simp [h1]
    · rcases List.mem_cons.mp hc with h1 | h1
      · subst h1
        by_cases hcc : cmp2 y b = true <;> simp [hcc]
      · simp [h1]

theorem minElement_mem {α : Type} (cmp : α → α → Bool) (l : List α) (e : α)
    (h : minElement cmp l = some e) : e ∈ l := by
  cases l with
  | nil => simp [minElement] at h
  | cons x xs =>
    simp only [minElement, Option.some_inj] at h
    exact h ▸ minElemAux_mem cmp x xs

theorem minElement_le {α : Type} (f : α → ℚ) (cmp : α → α → Bool)
    (hcmp : ∀ a c, cmp a c = decide (f a < f c)) (l : List α) (e : α)
    (h : minElement cmp l = some e) : ∀ x ∈ l, f e ≤ f x := by
  cases l with
  | nil => simp [minElement] at h
  | cons x xs =>
    simp only [minElement, Option.some_inj] at h
    exact h ▸ minElemAux_le f cmp hcmp x xs

theorem minElement_find {α : Type} (f : α → ℚ) (cmp : α → α → Bool)
    (hcmp : ∀ a c, cmp a c = decide (f a < f c)) (l : List α) (e : α)
    (h : minElement cmp l = some e) :
    l.find? (fun x => decide (f x = f e)) = some e := by
  cases l with
  | nil => simp [minElement] at h
  | cons x xs =>
    simp only [minElement, Option.some_inj] at h
    exact h ▸ minElemAux_find f cmp hcmp x xs


/-! Characterization of `compute` in terms of its components. -/

theorem entryValid_iff (s : BRepPointOnFacesProjection) (e : Ptr × Face) :
    entryValid s e = true ↔ e.1 ≠ 0 ∧ (s.heap e.1).isSome = true := by
  simp [entryValid]

theorem compute_eq_some (s : BRepPointOnFacesProjection) (q : Pnt)
    (s' : BRepPointOnFacesProjection) (h : compute s q = some s') :
    s.projectors.all (entryValid s) = true ∧
    minElement (computeCmp s q) s.projectors = some s'.solProjector ∧
    s'.heap = performedHeap s q ∧ s'.projectors = s.projectors ∧
    s'.nextPtr = s.nextPtr := by
  unfold compute at h
  by_cases hv : s.projectors.all (entryValid s) = true
  · cases hm : minElement (computeCmp s q) s.projectors with
    | none =>
      rw [if_pos hv, hm] at h
      exact absurd h (by simp)
    | some e =>
      rw [if_pos hv, hm] at h
      injection h with h
      subst h
      exact ⟨hv, rfl, rfl, rfl, rfl⟩
  · rw [if_neg hv] at h
    exact absurd h (by simp)

theorem mem_poolPtrs (s : BRepPointOnFacesProjection) (e : Ptr × Face)
    (h : e ∈ s.projectors) : e.1 ∈ poolPtrs s :=
  List.mem_map_of_mem Prod.fst h

theorem performedHeap_mem (s : BRepPointOnFacesProjection) (q : Pnt) (e : Ptr × Face)
    (hmem : e ∈ s.projectors) (hv : entryValid s e = true) :
    performedHeap s q e.1 = some (perform (heapGet s.heap e.1) q) := by
  rcases (entryValid_iff s e).mp hv with ⟨h0, hsome⟩
  rcases Option.isSome_iff_exists.mp hsome with ⟨pr, hpr⟩
  unfold performedHeap
  rw [if_pos (mem_poolPtrs s e hmem), hpr]
  simp [heapGet, hpr]

theorem heapGet_performed (s : BRepPointOnFacesProjection) (q : Pnt) (e : Ptr × Face)
    (hmem : e ∈ s.projectors) (hv : entryValid s e = true) :
    heapGet (performedHeap s q) e.1 = perform (heapGet s.heap e.1) q := by
  unfold heapGet
  rw [performedHeap_mem s q e hmem hv]
  rfl

theorem effAt_performed (s : BRepPointOnFacesProjection) (q : Pnt) (e : Ptr × Face)
    (hmem : e ∈ s.projectors) (hv : entryValid s e = true) :
    effAt (performedHeap s q) e =
      if convergedAt s e q then (projAt s e q).lowerDistance else DBL_MAX := by
  unfold effAt
  rw [heapGet_performed s q e hmem hv]
  rfl

theorem isDone_compute (s : BRepPointOnFacesProjection) (q : Pnt)
    (s' : BRepPointOnFacesProjection) (h : compute s q = some s') :
    isDone s' = some (decide (convergedAt s s'.solProjector q)) := by
  obtain ⟨hv, hm, hheap, hpool, -⟩ := compute_eq_some s q s' h
  have hmem : s'.solProjector ∈ s.projectors := minElement_mem _ _ _ hm
  have hval : entryValid s s'.solProjector = true :=
    List.all_eq_true.mp hv _ hmem
  rcases (entryValid_iff _ _).mp hval with ⟨h0, hsome⟩
  unfold isDone
  rw [if_neg h0, hheap, performedHeap_mem s q _ hmem hval]
  simp only [Option.map_some']
  congr 1
  cases hb : (projAt s s'.solProjector q).isDone <;>
    simp [convergedAt, perform, projAt, hb]

theorem solState_compute (s : BRepPointOnFacesProjection) (q : Pnt)
    (s' : BRepPointOnFacesProjection) (h : compute s q = some s') :
    s'.heap s'.solProjector.1 = some (perform (heapGet s.heap s'.solProjector.1) q) := by
  obtain ⟨hv, hm, hheap, -, -⟩ := compute_eq_some s q s' h
  have hmem : s'.solProjector ∈ s.projectors := minElement_mem _ _ _ hm
  have hval : entryValid s s'.solProjector = true :=
    List.all_eq_true.mp hv _ hmem
  rw [hheap]
  exact performedHeap_mem s q _ hmem hval

theorem solutionPoint_compute (s : BRepPointOnFacesProjection) (q : Pnt)
    (s' : BRepPointOnFacesProjection) (h : compute s q = some s')
    (hc : convergedAt s s'.solProjector q) :
    solutionPoint s' = some ((projAt s s'.solProjector q).nearestPoint) := by
  unfold solutionPoint
  rw [isDone_compute s q s' h, decide_eq_true hc, solState_compute s q s' h]
  rfl

theorem solutionUV_compute (s : BRepPointOnFacesProjection) (q : Pnt)
    (s' : BRepPointOnFacesProjection) (h : compute s q = some s')
    (hc : convergedAt s s'.solProjector q) :
    solutionUV s' = some ((projAt s s'.solProjector q).lowerDistanceUV) := by
  unfold solutionUV
  rw [isDone_compute s q s' h, decide_eq_true hc, solState_compute s q s' h]
  rfl

theorem solutionFace_compute (s : BRepPointOnFacesProjection) (q : Pnt)
    (s' : BRepPointOnFacesProjection) (h : compute s q = some s')
    (hc : convergedAt s s'.solProjector q) :
    solutionFace s' = some s'.solProjector.2 := by
  unfold solutionFace
  rw [isDone_compute s q s' h, decide_eq_true hc]


/-! Shared lemmas about accessors, selection and `prepare`. -/

theorem allocOne_nextPtr (s : BRepPointOnFacesProjection) (fs : Face × Surface) :
    (allocOne s fs).nextPtr = s.nextPtr + 1 := rfl

theorem allocOne_heap_at (s : BRepPointOnFacesProjection) (fs : Face × Surface) (p : Ptr) :
    (allocOne s fs).heap p = if p = s.nextPtr then some (mkProjector fs.2) else s.heap p := rfl

theorem allocOne_solProjector (s : BRepPointOnFacesProjection) (fs : Face × Surface) :
    (allocOne s fs).solProjector = s.solProjector := rfl

theorem accessors_of_isDone_false (s : BRepPointOnFacesProjection)
    (nrm : Face → ℚ → ℚ → Pnt) (hd : isDone s = some false) :
    solutionFace s = some Face.nullFace ∧ solutionPoint s = some origin3d ∧
    solutionUV s = some (0, 0) ∧ solutionNormal nrm s = some (0, 0, 1) := by
  unfold solutionFace solutionPoint solutionUV solutionNormal
  rw [hd]
  exact ⟨rfl, rfl, rfl, rfl⟩

theorem computeCmp_eq (s : BRepPointOnFacesProjection) (q : Pnt) :
    ∀ a c, computeCmp s q a c =
      decide (effAt (performedHeap s q) a < effAt (performedHeap s q) c) :=
  fun _ _ => rfl

theorem selected_converged (s : BRepPointOnFacesProjection) (q : Pnt)
    (s' : BRepPointOnFacesProjection) (h : compute s q = some s')
    (hfin : ∀ e ∈ s.projectors, convergedAt s e q →
      (projAt s e q).lowerDistance < DBL_MAX)
    (e : Ptr × Face) (he : e ∈ s.projectors) (hconv : convergedAt s e q) :
    convergedAt s s'.solProjector q := by
  obtain ⟨hv, hm, -, -, -⟩ := compute_eq_some s q s' h
  have hall := List.all_eq_true.mp hv
  have hmem : s'.solProjector ∈ s.projectors := minElement_mem _ _ _ hm
  have hle : effAt (performedHeap s q) s'.solProjector ≤ effAt (performedHeap s q) e :=
    minElement_le _ _ (computeCmp_eq s q) _ _ hm e he
  rw [effAt_performed s q e he (hall e he), if_pos hconv] at hle
  by_contra hsol
  rw [effAt_performed s q _ hmem (hall _ hmem), if_neg hsol] at hle
  exact absurd (lt_of_le_of_lt hle (hfin e he hconv)) (lt_irrefl _)

theorem accessors_congr (a b : BRepPointOnFacesProjection)
    (hsol : a.solProjector = b.solProjector)
    (hheap : a.heap a.solProjector.1 = b.heap b.solProjector.1) :
    isDone a = isDone b ∧ solutionFace a = solutionFace b ∧
    solutionPoint a = solutionPoint b ∧ solutionUV a = solutionUV b := by
  have hheap2 : a.heap b.solProjector.1 = b.heap b.solProjector.1 := by
    rw [hsol] at hheap
    exact hheap
  have hd : isDone a = isDone b := by
    unfold isDone
    rw [hsol, hheap2]
  refine ⟨hd, ?_, ?_, ?_⟩
  · unfold solutionFace
    rw [hd, hsol]
  · unfold solutionPoint
    rw [hd, hsol, hheap2]
  · unfold solutionUV
    rw [hd, hsol, hheap2]

theorem foldl_alloc_solProjector (shape : Shape) (s : BRepPointOnFacesProjection) :
    (shape.foldl allocOne s).solProjector = s.solProjector := by
  induction shape generalizing s with
  | nil => rfl
  | cons fs rest ih =>
    simp only [List.foldl_cons]
    rw [ih (allocOne s fs)]
    rfl

theorem foldl_alloc_nextPtr (shape : Shape) (s : BRepPointOnFacesProjection) :
    (shape.foldl allocOne s).nextPtr = s.nextPtr + shape.length := by
  induction shape generalizing s with
  | nil => rfl
  | cons fs rest ih =>
    simp only [List.foldl_cons]
    rw [ih (allocOne s fs), allocOne_nextPtr, List.length_cons]
    ring

theorem foldl_alloc_projectors (shape : Shape) (s : BRepPointOnFacesProjection) :
    (shape.foldl allocOne s).projectors = s.projectors ++ buildPool s.nextPtr shape := by
  induction shape generalizing s with
  | nil => simp [buildPool]
  | cons fs rest ih =>
    simp only [List.foldl_cons, buildPool]
    rw [ih (allocOne s fs)]
    simp [allocOne]

theorem foldl_alloc_heap_lt (shape : Shape) (s : BRepPointOnFacesProjection)
    (p : Ptr) (hp : p < s.nextPtr) :
    (shape.foldl allocOne s).heap p = s.heap p := by
  induction shape generalizing s with
  | nil => rfl
  | cons fs rest ih =>
    simp only [List.foldl_cons]
    rw [ih (allocOne s fs) (by rw [allocOne_nextPtr]; exact Nat.lt_succ_of_lt hp)]
    rw [allocOne_heap_at, if_neg (Nat.ne_of_lt hp)]

theorem foldl_alloc_heap_at (shape : Shape) (s : BRepPointOnFacesProjection)
    (i : ℕ) (hi : i < shape.length) :
    (shape.foldl allocOne s).heap (s.nextPtr + i) =
      some (mkProjector (shape.get ⟨i, hi⟩).2) := by
  induction shape generalizing s i with
  | nil => simp at hi
  | cons fs rest ih =>
    cases i with
    | zero =>
      simp only [List.foldl_cons]
      rw [Nat.add_zero]
      rw [foldl_alloc_heap_lt rest (allocOne s fs) s.nextPtr
        (by rw [allocOne_nextPtr]; exact Nat.lt_succ_self _)]
      rw [allocOne_heap_at, if_pos rfl]
      rfl
    | succ j =>
      simp only [List.foldl_cons]
      have hj : j < rest.length := by simpa using hi
      have hrw := ih (allocOne s fs) j hj
      rw [show s.nextPtr + (j + 1) = (allocOne s fs).nextPtr + j by rw [allocOne_nextPtr]; ring]
      rw [hrw]
      rfl

theorem buildPool_map_snd (n : Ptr) (shape : Shape) :
    (buildPool n shape).map Prod.snd = shape.map Prod.fst := by
  induction shape generalizing n with
  | nil => rfl
  | cons fs rest ih =>
    simp only [buildPool, List.map_cons]
    rw [ih (n + 1)]


/-! The claims. -/

/-- C9: whenever `isDone()` is false, the accessors return the documented
sentinel defaults without failing: `solutionFace()` the null face,
`solutionPoint()` the origin, `solutionUV()` `(0,0)`, and
`solutionNormal()` the unit +Z vector. -/
theorem C9_sentinel_accessors (s : BRepPointOnFacesProjection)
    (nrm : Face → ℚ → ℚ → Pnt) (hd : isDone s = some false) :
    solutionFace s = some Face.nullFace ∧ solutionPoint s = some origin3d ∧
    solutionUV s = some (0, 0) ∧ solutionNormal nrm s = some (0, 0, 1) :=
  accessors_of_isDone_false s nrm hd

/-- Witness for C9: the freshly constructed projector has `isDone()`
false, and the accessors indeed return the sentinels. -/
theorem C9_sentinel_accessors_witness :
    solutionFace mkProjection = some Face.nullFace ∧
    solutionPoint mkProjection = some origin3d ∧
    solutionUV mkProjection = some (0, 0) ∧
    solutionNormal (fun _ _ _ => origin3d) mkProjection = some (0, 0, 1) :=
  C9_sentinel_accessors mkProjection (fun _ _ _ => origin3d) (by rfl)

/-- C10: a freshly default-constructed projector stores a null solution
projector, `isDone()` is false, and every accessor returns its sentinel
default without dereferencing the null pointer. -/
theorem C10_fresh_projector_safe :
    mkProjection.solProjector.1 = 0 ∧ isDone mkProjection = some false ∧
    solutionFace mkProjection = some Face.nullFace ∧
    solutionPoint mkProjection = some origin3d ∧
    solutionUV mkProjection = some (0, 0) ∧
    ∀ nrm : Face → ℚ → ℚ → Pnt, solutionNormal nrm mkProjection = some (0, 0, 1) :=
  ⟨rfl, rfl, rfl, rfl, rfl, fun _ => rfl⟩

/-- Counterexample to C5 as stated: on an empty pool, `compute` does fail
(`assert(iResult != _projectors.end())` is violated and the release build
dereferences `end()`), so it produces no result state at all, modelled by
`none`; the claim asserted `compute` on an empty pool does not fail. -/
theorem C5_empty_compute_counterexample :
    compute (mkProjectionWith []) (0, 0, 3) = none := by rfl

/-- C5 amended: on an empty pool `compute` hits the failing
`always_a_minimum` assertion and yields no result; the advertised
sentinels (`isDone() == false`, `solutionPoint() == (0,0,0)`,
`solutionUV() == (0,0)`, `solutionNormal() == (0,0,1)`) instead describe
the empty-pool state itself, whose stored solution projector is null. -/
theorem C5_empty_pool_amended (s : BRepPointOnFacesProjection) (q : Pnt)
    (nrm : Face → ℚ → ℚ → Pnt) (hp : s.projectors = [])
    (h0 : s.solProjector.1 = 0) :
    compute s q = none ∧ isDone s = some false ∧
    solutionFace s = some Face.nullFace ∧ solutionPoint s = some origin3d ∧
    solutionUV s = some (0, 0) ∧ solutionNormal nrm s = some (0, 0, 1) := by
  have hd : isDone s = some false := by
    unfold isDone
    rw [if_pos h0]
  have hcomp : compute s q = none := by
    unfold compute
    rw [hp]
    rfl
  obtain ⟨h1, h2, h3, h4⟩ := accessors_of_isDone_false s nrm hd
  exact ⟨hcomp, hd, h1, h2, h3, h4⟩

/-- Witness for C5's amended theorem at the projector prepared from a
zero-face shape and the query point `(0,0,3)`. -/
theorem C5_empty_pool_amended_witness :
    compute (mkProjectionWith []) (0, 0, 3) = none ∧
    isDone (mkProjectionWith []) = some false ∧
    solutionFace (mkProjectionWith []) = some Face.nullFace ∧
    solutionPoint (mkProjectionWith []) = some origin3d ∧
    solutionUV (mkProjectionWith []) = some (0, 0) ∧
    solutionNormal (fun _ _ _ => origin3d) (mkProjectionWith []) = some (0, 0, 1) :=
  C5_empty_pool_amended (mkProjectionWith []) (0, 0, 3)
    (fun _ _ _ => origin3d) (by rfl) (by rfl)

/-- C6: on a non-empty pool (whose entries are live projector contexts,
as `prepare` always produces), the `std::min_element` reduction always
yields an element — the `always_a_minimum` assertion cannot fail — and
`compute` returns a state. -/
theorem C6_min_always_exists (s : BRepPointOnFacesProjection) (q : Pnt)
    (hne : s.projectors ≠ [])
    (hv : s.projectors.all (entryValid s) = true) :
    (∃ e, minElement (computeCmp s q) s.projectors = some e) ∧
    ∃ t, compute s q = some t := by
  obtain ⟨x, xs, hx⟩ := List.exists_cons_of_ne_nil hne
  have hm : minElement (computeCmp s q) s.projectors =
      some (minElemAux (computeCmp s q) x xs) := by
    rw [hx]
    rfl
  refine ⟨⟨_, hm⟩, ⟨{ s with heap := performedHeap s q, solProjector := minElemAux (computeCmp s q) x xs }, ?_⟩⟩
  unfold compute
  rw [if_pos hv, hm]

/-- Witness for C6 at the two-plane soup and query point `(0,0,3)`. -/
theorem C6_min_always_exists_witness :
    (∃ e, minElement (computeCmp sAB qC) sAB.projectors = some e) ∧
    ∃ t, compute sAB qC = some t :=
  C6_min_always_exists sAB qC (by decide) (by decide)

/-- C4: the entry `compute` selects is minimal for the effective distance
of the performed projections, and it is the first entry of the pool (in
enumeration order) attaining that minimal distance — so ties, including
the all-`DBL_MAX` case, resolve to the first entry, deterministically. -/
theorem C4_ties_resolve_first (s : BRepPointOnFacesProjection) (q : Pnt)
    (s' : BRepPointOnFacesProjection) (h : compute s q = some s') :
    (∀ e ∈ s.projectors,
      effAt (performedHeap s q) s'.solProjector ≤ effAt (performedHeap s q) e) ∧
    s.projectors.find?
        (fun e => decide (effAt (performedHeap s q) e =
          effAt (performedHeap s q) s'.solProjector)) = some s'.solProjector := by
  obtain ⟨hv, hm, -, -, -⟩ := compute_eq_some s q s' h
  exact ⟨minElement_le _ _ (computeCmp_eq s q) _ _ hm,
    minElement_find _ _ (computeCmp_eq s q) _ _ hm⟩

/-- Witness for C4 on the all-failing two-face soup: both entries tie at
`DBL_MAX`, and the selected entry is the first face of the pool. -/
theorem C4_ties_resolve_first_witness :
    sTie2.solProjector = (1, Face.mk 1) ∧
    ((∀ e ∈ sTie.projectors,
      effAt (performedHeap sTie qC) sTie2.solProjector ≤ effAt (performedHeap sTie qC) e) ∧
    sTie.projectors.find?
        (fun e => decide (effAt (performedHeap sTie qC) e =
          effAt (performedHeap sTie qC) sTie2.solProjector)) = some sTie2.solProjector) :=
  ⟨by rfl, C4_ties_resolve_first sTie qC sTie2 (by rfl)⟩

/-- C2: after `compute` on a non-empty soup, `isDone()` is true iff at
least one face's projection converged with at least one candidate
(assuming the black box reports genuine distances, i.e. below
`DBL_MAX`, for converged projections). -/
theorem C2_isDone_iff_some_converged (s : BRepPointOnFacesProjection) (q : Pnt)
    (s' : BRepPointOnFacesProjection) (h : compute s q = some s')
    (_hne : s.projectors ≠ [])
    (hfin : ∀ e ∈ s.projectors, convergedAt s e q →
      (projAt s e q).lowerDistance < DBL_MAX) :
    isDone s' = some true ↔ ∃ e ∈ s.projectors, convergedAt s e q := by
  obtain ⟨hv, hm, -, -, -⟩ := compute_eq_some s q s' h
  have hmem : s'.solProjector ∈ s.projectors := minElement_mem _ _ _ hm
  rw [isDone_compute s q s' h]
  constructor
  · intro htrue
    exact ⟨s'.solProjector, hmem, of_decide_eq_true (Option.some_inj.mp htrue)⟩
  · rintro ⟨e, he, hconv⟩
    have hsol := selected_converged s q s' h hfin e he hconv
    rw [decide_eq_true hsol]

/-- Witness for C2 on the mixed soup (first face fails, second
converges): `isDone()` is true and face 2 is the converged witness. -/
theorem C2_isDone_iff_some_converged_witness :
    isDone sMix2 = some true ↔ ∃ e ∈ sMix.projectors, convergedAt sMix e qC :=
  C2_isDone_iff_some_converged sMix qC sMix2 (by rfl) (by decide) (by decide)

/-- C3: a failed or empty projection gets effective distance `DBL_MAX`
(the code's finite stand-in for +infinity); such an entry is never
selected while any converged entry exists, and when every entry of the
soup fails, an entry is still nominally stored (it belongs to the pool)
but `isDone()` reports false. -/
theorem C3_failed_entries_infinite (s : BRepPointOnFacesProjection) (q : Pnt)
    (s' : BRepPointOnFacesProjection) (h : compute s q = some s')
    (hfin : ∀ e ∈ s.projectors, convergedAt s e q →
      (projAt s e q).lowerDistance < DBL_MAX) :
    (∀ e ∈ s.projectors, ¬ convergedAt s e q →
      effAt (performedHeap s q) e = DBL_MAX) ∧
    ((∃ e ∈ s.projectors, convergedAt s e q) → convergedAt s s'.solProjector q) ∧
    ((∀ e ∈ s.projectors, ¬ convergedAt s e q) →
      s'.solProjector ∈ s.projectors ∧ isDone s' = some false) := by
  obtain ⟨hv, hm, -, -, -⟩ := compute_eq_some s q s' h
  have hall := List.all_eq_true.mp hv
  have hmem : s'.solProjector ∈ s.projectors := minElement_mem _ _ _ hm
  refine ⟨?_, ?_, ?_⟩
  · intro e he hnc
    rw [effAt_performed s q e he (hall e he), if_neg hnc]
  · rintro ⟨e, he, hconv⟩
    exact selected_converged s q s' h hfin e he hconv
  · intro hallfail
    refine ⟨hmem, ?_⟩
    rw [isDone_compute s q s' h,
      decide_eq_false (hallfail s'.solProjector hmem)]

/-- Witness for C3 on the mixed soup: hypotheses hold concretely, so the
failed first face has effective distance `DBL_MAX` and cannot be the
selection while face 2 converges. -/
theorem C3_failed_entries_infinite_witness :
    (∀ e ∈ sMix.projectors, ¬ convergedAt sMix e qC →
      effAt (performedHeap sMix qC) e = DBL_MAX) ∧
    ((∃ e ∈ sMix.projectors, convergedAt sMix e qC) →
      convergedAt sMix sMix2.solProjector qC) ∧
    ((∀ e ∈ sMix.projectors, ¬ convergedAt sMix e qC) →
      sMix2.solProjector ∈ sMix.projectors ∧ isDone sMix2 = some false) :=
  C3_failed_entries_infinite sMix qC sMix2 (by rfl) (by decide)

/-- C1: when `isDone()` holds after `compute(point)`, the stored entry
attains the global minimum of the per-face lower distances among
converged entries; granted that each converged black-box projection
reports a nonnegative lower distance whose square is the squared
distance from the query point to its nearest point, the solution point
is at least as close to the query point (squared distances being
order-equivalent to distances) as every other face's nearest point. -/
theorem C1_global_minimum (s : BRepPointOnFacesProjection) (q : Pnt)
    (s' : BRepPointOnFacesProjection) (h : compute s q = some s')
    (hcons : ∀ e ∈ s.projectors, convergedAt s e q →
      0 ≤ (projAt s e q).lowerDistance ∧
      (projAt s e q).lowerDistance * (projAt s e q).lowerDistance =
        dist2 q (projAt s e q).nearestPoint)
    (hd : isDone s' = some true) :
    ∃ sp, solutionPoint s' = some sp ∧
      ∀ e ∈ s.projectors, convergedAt s e q →
        (projAt s s'.solProjector q).lowerDistance ≤ (projAt s e q).lowerDistance ∧
        dist2 q sp ≤ dist2 q (projAt s e q).nearestPoint := by
  obtain ⟨hv, hm, -, -, -⟩ := compute_eq_some s q s' h
  have hall := List.all_eq_true.mp hv
  have hmem : s'.solProjector ∈ s.projectors := minElement_mem _ _ _ hm
  have hsol : convergedAt s s'.solProjector q := by
    rw [isDone_compute s q s' h] at hd
    exact of_decide_eq_true (Option.some_inj.mp hd)
  refine ⟨_, solutionPoint_compute s q s' h hsol, ?_⟩
  intro e he hconv
  have hle : effAt (performedHeap s q) s'.solProjector ≤ effAt (performedHeap s q) e :=
    minElement_le _ _ (computeCmp_eq s q) _ _ hm e he
  rw [effAt_performed s q e he (hall e he), if_pos hconv,
      effAt_performed s q _ hmem (hall _ hmem), if_pos hsol] at hle
  obtain ⟨hnns, heqs⟩ := hcons _ hmem hsol
  obtain ⟨hnne, heqe⟩ := hcons e he hconv
  refine ⟨hle, ?_⟩
  calc dist2 q ((projAt s s'.solProjector q).nearestPoint)
      = (projAt s s'.solProjector q).lowerDistance *
          (projAt s s'.solProjector q).lowerDistance := heqs.symm
    _ ≤ (projAt s e q).lowerDistance * (projAt s e q).lowerDistance :=
        mul_self_le_mul_self hnns hle
    _ = dist2 q ((projAt s e q).nearestPoint) := heqe

/-- Witness for C1 on the spec's two-plane scenario: the z=0 face (lower
distance 3) is selected over the z=10 face (lower distance 7) and its
nearest point is the closest. -/
theorem C1_global_minimum_witness :
    ∃ sp, solutionPoint sAB2 = some sp ∧
      ∀ e ∈ sAB.projectors, convergedAt sAB e qC →
        (projAt sAB sAB2.solProjector qC).lowerDistance ≤ (projAt sAB e qC).lowerDistance ∧
        dist2 qC sp ≤ dist2 qC (projAt sAB e qC).nearestPoint :=
  C1_global_minimum sAB qC sAB2 (by rfl)
    (by
      intro e he _hconv
      have hp : sAB.projectors = [(1, Face.mk 1), (2, Face.mk 2)] := by rfl
      rw [hp] at he
      rcases List.mem_cons.mp he with h1 | h1
      · subst h1
        show (0 : ℚ) ≤ 3 ∧ (3 : ℚ) * 3 = dist2 qC (0, 0, 0)
        constructor
        · norm_num
        · norm_num [dist2, qC]
      · rcases List.mem_cons.mp h1 with h2 | h2
        · subst h2
          show (0 : ℚ) ≤ 7 ∧ (7 : ℚ) * 7 = dist2 qC (0, 0, 10)
          constructor
          · norm_num
          · norm_num [dist2, qC]
        · exact absurd h2 (List.not_mem_nil e))
    (by rfl)


/-- Re-performing a projector at the same point does not change it. -/
theorem perform_perform (p : Projector_t) (q : Pnt) :
    perform (perform p q) q = perform p q := rfl

/-- C8: for a fixed soup and fixed query point, `compute` is a full
re-projection independent of prior queries: calling it again succeeds and
yields the identical selected entry, face, solution point and (u,v). -/
theorem C8_repeated_compute_identical (s : BRepPointOnFacesProjection) (q : Pnt)
    (s1 : BRepPointOnFacesProjection) (h : compute s q = some s1) :
    ∃ s2, compute s1 q = some s2 ∧ s2.solProjector = s1.solProjector ∧
      solutionFace s2 = solutionFace s1 ∧ solutionPoint s2 = solutionPoint s1 ∧
      solutionUV s2 = solutionUV s1 := by
  obtain ⟨hv, hm, hheap, hpool, -⟩ := compute_eq_some s q s1 h
  have hall := List.all_eq_true.mp hv
  have hmem : s1.solProjector ∈ s.projectors := minElement_mem _ _ _ hm
  have hv1 : s1.projectors.all (entryValid s1) = true := by
    apply List.all_eq_true.mpr
    intro e he
    rw [hpool] at he
    have hv0 := hall e he
    rcases (entryValid_iff s e).mp hv0 with ⟨h0, -⟩
    apply (entryValid_iff s1 e).mpr
    refine ⟨h0, ?_⟩
    rw [hheap, performedHeap_mem s q e he hv0]
    rfl
  have hget1 : ∀ e ∈ s.projectors,
      heapGet s1.heap e.1 = perform (heapGet s.heap e.1) q := by
    intro e he
    unfold heapGet
    rw [hheap, performedHeap_mem s q e he (hall e he)]
    rfl
  have hagree : ∀ e ∈ s.projectors,
      heapGet (performedHeap s1 q) e.1 = heapGet (performedHeap s q) e.1 := by
    intro e he
    have he1 : e ∈ s1.projectors := by
      rw [hpool]
      exact he
    rw [heapGet_performed s1 q e he1 (List.all_eq_true.mp hv1 e he1),
      heapGet_performed s q e he (hall e he), hget1 e he, perform_perform]
  have hcagree : ∀ a ∈ s.projectors, ∀ c ∈ s.projectors,
      computeCmp s1 q a c = computeCmp s q a c := by
    intro a ha c hc
    unfold computeCmp
    rw [hagree a ha, hagree c hc]
  obtain ⟨x, xs, hx⟩ : ∃ x xs, s.projectors = x :: xs := by
    cases hsp : s.projectors with
    | nil =>
      rw [hsp] at hm
      simp [minElement] at hm
    | cons x xs => exact ⟨x, xs, rfl⟩
  have hmaux : minElemAux (computeCmp s q) x xs = s1.solProjector := by
    rw [hx] at hm
    exact Option.some_inj.mp hm
  have hm1 : minElement (computeCmp s1 q) s1.projectors = some s1.solProjector := by
    rw [hpool, hx]
    show some (minElemAux (computeCmp s1 q) x xs) = some s1.solProjector
    rw [minElemAux_congr (computeCmp s1 q) (computeCmp s q) x xs
      (by
        intro a ha c hc
        rw [← hx] at ha hc
        exact hcagree a ha c hc), hmaux]
  refine ⟨{ s1 with heap := performedHeap s1 q, solProjector := s1.solProjector }, ?_, rfl, ?_⟩
  · unfold compute
    rw [if_pos hv1, hm1]
  · have hmem1 : s1.solProjector ∈ s1.projectors := by
      rw [hpool]
      exact hmem
    have hv1sol : entryValid s1 s1.solProjector = true :=
      List.all_eq_true.mp hv1 _ hmem1
    have hheapq :
        performedHeap s1 q s1.solProjector.1 = s1.heap s1.solProjector.1 := by
      rw [performedHeap_mem s1 q _ hmem1 hv1sol, hget1 _ hmem, perform_perform,
        hheap, performedHeap_mem s q _ hmem (hall _ hmem)]
    obtain ⟨-, hf, hpt, huv⟩ :=
      accessors_congr
        { s1 with heap := performedHeap s1 q, solProjector := s1.solProjector } s1
        rfl hheapq
    exact ⟨hf, hpt, huv⟩

/-- Witness for C8 on the two-plane soup: a second `compute` at the same
point reproduces the same selection and solution data. -/
theorem C8_repeated_compute_identical_witness :
    ∃ s2, compute sAB2 qC = some s2 ∧ s2.solProjector = sAB2.solProjector ∧
      solutionFace s2 = solutionFace sAB2 ∧ solutionPoint s2 = solutionPoint sAB2 ∧
      solutionUV s2 = solutionUV sAB2 :=
  C8_repeated_compute_identical sAB qC sAB2 (by rfl)


/-- Counterexample to C7 as stated: after preparing a one-face shape,
computing, and re-preparing with a different one-face shape, the stored
solution projector still holds the prior generation's entry
`(1, Face.mk 1)` whose context has been freed — prior-generation state
remains reachable through the projector as a dangling entry, and
`isDone()` would dereference freed memory (undefined behaviour, `none`). -/
theorem C7_dangling_solProjector_counterexample :
    compute sOne qC = some sOne2 ∧
    sOne3.solProjector = (1, Face.mk 1) ∧
    sOne3.heap 1 = none ∧
    isDone sOne3 = none :=
  ⟨rfl, rfl, rfl, rfl⟩

/-- C7 amended: a second `prepare` fully replaces the pool — every
context owned by the previous pool is freed, the new pool consists
exactly of fresh contexts for the new shape's faces in enumeration order
(so a subsequent `compute` considers only faces of the new shape), and a
zero-face shape raises no error and leaves the pool empty — but the
stored solution projector of the prior generation is retained as a
dangling reference until the next `compute`. -/
theorem C7_prepare_replaces_pool (s : BRepPointOnFacesProjection) (shape : Shape)
    (hwf : ∀ p ∈ poolPtrs s, p < s.nextPtr) :
    (∀ p ∈ poolPtrs s, p ≠ 0 → (prepare s shape).heap p = none) ∧
    (prepare s shape).projectors = buildPool s.nextPtr shape ∧
    (prepare s shape).projectors.map Prod.snd = shape.map Prod.fst ∧
    (∀ i (hi : i < shape.length),
      (prepare s shape).heap (s.nextPtr + i) = some (mkProjector (shape.get ⟨i, hi⟩).2)) ∧
    (shape = [] → (prepare s shape).projectors = []) ∧
    (prepare s shape).solProjector = s.solProjector := by
  have hrel_next : (releaseMemory s).nextPtr = s.nextPtr := rfl
  have hrel_pool : (releaseMemory s).projectors = [] := rfl
  refine ⟨?_, ?_, ?_, ?_, ?_, ?_⟩
  · intro p hp hp0
    unfold prepare
    rw [foldl_alloc_heap_lt shape (releaseMemory s) p (by rw [hrel_next]; exact hwf p hp)]
    show (if p ∈ poolPtrs s ∧ p ≠ 0 then none else s.heap p) = none
    rw [if_pos ⟨hp, hp0⟩]
  · unfold prepare
    rw [foldl_alloc_projectors, hrel_pool, hrel_next, List.nil_append]
  · unfold prepare
    rw [foldl_alloc_projectors, hrel_pool, hrel_next, List.nil_append,
      buildPool_map_snd]
  · intro i hi
    unfold prepare
    have hat := foldl_alloc_heap_at shape (releaseMemory s) i hi
    rw [hrel_next] at hat
    exact hat
  · intro hsh
    subst hsh
    unfold prepare
    rw [foldl_alloc_projectors, hrel_pool, List.nil_append]
    rfl
  · unfold prepare
    rw [foldl_alloc_solProjector]
    rfl

/-- Witness for C7's amended theorem: re-preparing the computed one-face
projector with a second one-face shape frees pointer 1, builds the pool
`[(2, Face.mk 2)]` for the new shape, and keeps the stale solution
projector `(1, Face.mk 1)`. -/
theorem C7_prepare_replaces_pool_witness :
    (∀ p ∈ poolPtrs sOne2, p ≠ 0 → (prepare sOne2 [(Face.mk 2, surfZ10)]).heap p = none) ∧
    (prepare sOne2 [(Face.mk 2, surfZ10)]).projectors =
      buildPool sOne2.nextPtr [(Face.mk 2, surfZ10)] ∧
    (prepare sOne2 [(Face.mk 2, surfZ10)]).projectors.map Prod.snd =
      ([(Face.mk 2, surfZ10)] : Shape).map Prod.fst ∧
    (∀ i (hi : i < ([(Face.mk 2, surfZ10)] : Shape).length),
      (prepare sOne2 [(Face.mk 2, surfZ10)]).heap (sOne2.nextPtr + i) =
        some (mkProjector (([(Face.mk 2, surfZ10)] : Shape).get ⟨i, hi⟩).2)) ∧
    (([(Face.mk 2, surfZ10)] : Shape) = [] →
      (prepare sOne2 [(Face.mk 2, surfZ10)]).projectors = []) ∧
    (prepare sOne2 [(Face.mk 2, surfZ10)]).solProjector = sOne2.solProjector :=
  C7_prepare_replaces_pool sOne2 [(Face.mk 2, surfZ10)] (by decide)

end occ
